import Mathlib

/-!
Verification of the polygon-area core of ValdezTech-property-solutions

This file embeds the polygon-area computation of the repository's two GIS
modules into Lean and proves/refutes the specification claims about it.

The improved module (`gis.js`, the version with the Web-Mercator projection)
is embedded at the top level of namespace `ValdezGIS`; the legacy
fixed-multiplier module (`src/gis.js`) is embedded in namespace
`ValdezGIS.Legacy`.

Modelling conventions:
* JavaScript numbers are idealised as real numbers (`ℝ`); consequently the
  non-finite (`NaN`/`Infinity`) inputs mentioned by the spec have no
  counterpart here, and floating-point rounding is ignored.
* A geometry's `rings` array is a `List (List Pt)` where a point is a
  `(longitude, latitude)` pair in degrees.  A missing/`null` geometry is not
  modelled separately from an empty `rings` list where the code treats the
  two alike; where the legacy code *throws* on an empty `rings` array the
  embedding returns `Except.error`.
* `null` results become `Option.none`; `Math.round` is Lean's `round`
  (both are floor of `x + 1/2`).
-/

namespace ValdezGIS

noncomputable section

/-- A planar point: either `(longitude, latitude)` in degrees, or a projected
`(x, y)` pair in meters. -/
abbrev Pt : Type := ℝ × ℝ

/-- One shoelace cross-product term `prev.x * curr.y - curr.x * prev.y`,
as accumulated by `ringAreaMeters2`'s loop
(`area += prev[0] * curr[1] - curr[0] * prev[1]`). -/
def crossProd (p q : Pt) : ℝ := p.1 * q.2 - q.1 * p.2

/-- One term `(x_j - x_i) * (y_i + y_j)` of `signedAreaLonLat`'s loop, where
`p` is the previous point (index `j`) and `q` the current one (index `i`).
The same term shape is used by the legacy `calculatePolygonAreaSqFt`. -/
def shoeTerm (p q : Pt) : ℝ := (p.1 - q.1) * (q.2 + p.2)

/-- Sum of `f` over the consecutive (non-wrapping) pairs of a list:
`f l[0] l[1] + f l[1] l[2] + ...`.  This is the body of the source loops
before the closing (wrap-around) term is added. -/
def pathSum (f : Pt → Pt → ℝ) : List Pt → ℝ
  | a :: b :: rest => f a b + pathSum f (b :: rest)
  | _ => 0

/-- Sum of `f` over all cyclically consecutive pairs of a list: the
consecutive pairs plus the wrap-around pair `(last, first)`.  Both source
loops (`ringAreaMeters2` and `signedAreaLonLat`) accumulate exactly these
terms; for the empty list no loop iteration runs and the sum is `0`. -/
def cyclicSum (f : Pt → Pt → ℝ) (l : List Pt) : ℝ :=
  if l.isEmpty then 0
  else pathSum f l + f (l.getLastD (0, 0)) (l.headD (0, 0))

/-- `signedAreaLonLat` (improved gis.js, lines 162-172): signed shoelace
area computed directly on raw longitude/latitude coordinates, used only for
its sign (ring orientation).  No length guard appears in the source; rings
with fewer than 2 points make the loop contribute nothing but `0`. -/
def signedAreaLonLat (ring : List Pt) : ℝ := cyclicSum shoeTerm ring / 2

/-- `lonLatToMercator` (improved gis.js, lines 116-122): spherical Web
Mercator forward projection with `R = 6378137` meters,
`x = R * (lon * π / 180)`, `y = R * ln (tan (π/4 + (lat * π / 180) / 2))`. -/
noncomputable def lonLatToMercator (p : Pt) : Pt :=
  (6378137 * (p.1 * Real.pi / 180),
   6378137 * Real.log (Real.tan (Real.pi / 4 + p.2 * Real.pi / 180 / 2)))

/-- `ringAreaMeters2` (improved gis.js, lines 125-138): absolute shoelace
area of the projected ring, in square meters; rings with fewer than 3
points yield `0`. -/
noncomputable def ringAreaMeters2 (ring : List Pt) : ℝ :=
  if ring.length < 3 then 0
  else |cyclicSum crossProd (ring.map lonLatToMercator)| / 2

/-- The fixed m² → ft² factor of the improved gis.js (line 156). -/
def meters2ToSqFt : ℝ := 10.76391041671

/-- The ring-accumulation loop of the improved `calculatePolygonAreaSqFt`
(lines 144-154): each ring's magnitude is subtracted when its raw-coordinate
signed area is negative, added otherwise. -/
noncomputable def totalMeters2 (rings : List (List Pt)) : ℝ :=
  rings.foldl
    (fun acc ring =>
      if signedAreaLonLat ring < 0 then acc - ringAreaMeters2 ring
      else acc + ringAreaMeters2 ring) 0

/-- The square-feet total `totalMeters2 * meters2ToSqFt` of the improved
`calculatePolygonAreaSqFt` (line 157). -/
noncomputable def totalSqFt (rings : List (List Pt)) : ℝ :=
  totalMeters2 rings * meters2ToSqFt

/-- `calculatePolygonAreaSqFt` (improved gis.js, lines 110-159): `none` for a
missing/empty rings array, otherwise the rounded square-feet total when it is
positive and `none` (JavaScript `null`) otherwise. -/
noncomputable def calculatePolygonAreaSqFt (rings : List (List Pt)) : Option ℤ :=
  if rings.isEmpty then none
  else if 0 < totalSqFt rings then some (round (totalSqFt rings))
  else none

/-- The `totalSqFt` accumulator of `fetchBuildingFootprintArea` (improved
gis.js, lines 91-95): `if (area) totalSqFt += area` adds each feature's
area, skipping falsy values (`null`, and a literal `0` — which would
contribute nothing anyway). -/
noncomputable def buildingTotalSqFt (geoms : List (List (List Pt))) : ℤ :=
  geoms.foldl
    (fun acc g =>
      match calculatePolygonAreaSqFt g with
      | none => acc
      | some v => if v = 0 then acc else acc + v) 0

/-- The per-feature aggregation of `fetchBuildingFootprintArea` (improved
gis.js, lines 89-97), with the network layer stripped: the input is the list
of already-parsed feature geometries.  An empty feature list returns `null`
early; the final `return totalSqFt ? Math.round(totalSqFt) : null` returns
`null` exactly when the (integer) sum is `0`.  `Math.round` of an
integer-valued sum is itself, so it is omitted. -/
noncomputable def fetchBuildingFootprintArea
    (geoms : List (List (List Pt))) : Option ℤ :=
  if geoms.isEmpty then none
  else if buildingTotalSqFt geoms = 0 then none
  else some (buildingTotalSqFt geoms)

namespace Legacy

/-- Legacy `calculatePolygonAreaSqFt` (src/gis.js, lines 129-146): shoelace
on the *first* ring's raw degree coordinates (same loop shape as
`signedAreaLonLat`, not divided by 2), then `|area| * 12365 * 10.7639`.
With an empty `rings` array the source dereferences `undefined` and throws,
modelled as `Except.error`.  (The `null`-geometry guard that returns `null`
is outside this model, which starts from a present `rings` array.) -/
def calculatePolygonAreaSqFt (rings : List (List Pt)) : Except Unit ℝ :=
  match rings with
  | [] => Except.error ()
  | ring :: _ => Except.ok (|cyclicSum shoeTerm ring| * 12365 * 10.7639)

end Legacy

/-! ## Spec-modelled definitions (for the refinement claim C2)

These definitions follow the wording of the specification, §4.1 steps 2-3,
and are compared against the source-derived definitions above. -/

/-- Modelled from the spec: `radians(d)` = degrees to radians. -/
def specRadians (d : ℝ) : ℝ := d * Real.pi / 180

/-- Modelled from the spec: "project every point to planar coordinates:
`x = R * radians(longitude)`, `y = R * ln(tan(π/4 + radians(latitude)/2))`,
with `R` = 6,378,137". -/
noncomputable def specMercatorProj (p : Pt) : Pt :=
  (6378137 * specRadians p.1,
   6378137 * Real.log (Real.tan (Real.pi / 4 + specRadians p.2 / 2)))

/-- Modelled from the spec: "the ring's planar area magnitude in square
meters via shoelace on the projected points (sum of cross products over
consecutive pairs including wrap-around, absolute value, divide by 2)",
written as an index sum with wrap-around via `% length`. -/
noncomputable def specRingAreaMeters2 (ring : List Pt) : ℝ :=
  |∑ i in Finset.range (ring.map specMercatorProj).length,
      crossProd ((ring.map specMercatorProj).getD i (0, 0))
        ((ring.map specMercatorProj).getD
          ((i + 1) % (ring.map specMercatorProj).length) (0, 0))| / 2

/-! ## Further definitions used by the concrete evaluations

Component form of the projection, rectangle families, and the concrete
rings used as inputs.  `oRing` is a tiny outer rectangle (3·10⁻⁷ degrees on
a side near the equator, roughly 3 cm), whose area in square feet lies
strictly between 0 and 1/2 and therefore rounds to 0.  `hRing` is a
strictly smaller clockwise rectangle strictly inside it.  `bigRing` is the
same shape scaled up to 3·10⁻³ degrees (roughly 330 m), whose area is far
above one square foot. -/

/-- The Mercator x-coordinate, `mercX lon = R * radians lon`. -/
def mercX (lon : ℝ) : ℝ := 6378137 * (lon * Real.pi / 180)

/-- The Mercator y-coordinate,
`mercY lat = R * ln (tan (π/4 + radians lat / 2))`. -/
def mercY (lat : ℝ) : ℝ :=
  6378137 * Real.log (Real.tan (Real.pi / 4 + lat * Real.pi / 360))

/-- A counter-clockwise axis-aligned rectangle `[0, 3u] × [0, 3t]` in degree
coordinates. -/
def rectO (u t : ℝ) : List Pt := [(0, 0), (3 * u, 0), (3 * u, 3 * t), (0, 3 * t)]

/-- A clockwise axis-aligned rectangle `[a, b] × [c, d]` in degree
coordinates (traversed up the left side first). -/
def rectH (a b c d : ℝ) : List Pt := [(a, c), (a, d), (b, d), (b, c)]

def oRing : List Pt := rectO (1 / 10 ^ 7) (1 / 10 ^ 7)

def hRing : List Pt := rectH (1 / 10 ^ 7) (2 / 10 ^ 7) (1 / 10 ^ 7) (2 / 10 ^ 7)

def bigRing : List Pt := rectO (1 / 10 ^ 3) (1 / 10 ^ 3)

/-- The basic projected unit of the small rings: the `mercY`-scale of one
10⁻⁷-degree step. -/
def Wsmall : ℝ := 6378137 * (1 / 10 ^ 7 * Real.pi / 360)

/-- The basic projected unit of the big ring. -/
def Wbig : ℝ := 6378137 * (1 / 10 ^ 3 * Real.pi / 360)

/-! ## Basic structural lemmas -/

theorem pathSum_nil (f : Pt → Pt → ℝ) : pathSum f [] = 0 := rfl

theorem pathSum_single (f : Pt → Pt → ℝ) (a : Pt) : pathSum f [a] = 0 := rfl

theorem pathSum_cons_cons (f : Pt → Pt → ℝ) (a b : Pt) (l : List Pt) :
    pathSum f (a :: b :: l) = f a b + pathSum f (b :: l) := rfl

theorem cyclicSum_nil (f : Pt → Pt → ℝ) : cyclicSum f [] = 0 := rfl

theorem cyclicSum_cons (f : Pt → Pt → ℝ) (a : Pt) (l : List Pt) :
    cyclicSum f (a :: l) = pathSum f (a :: l) + f (l.getLastD a) a := by
  simp only [cyclicSum, List.isEmpty_cons, List.getLastD_cons,
    List.headD_cons, Bool.false_eq_true, if_false]

/-- The fold of `totalMeters2` with an arbitrary start value, as a sum of
per-ring signed contributions. -/
theorem totalMeters2_foldl (rings : List (List Pt)) (s : ℝ) :
    rings.foldl
      (fun acc ring =>
        if signedAreaLonLat ring < 0 then acc - ringAreaMeters2 ring
        else acc + ringAreaMeters2 ring) s
    = s + (rings.map
        (fun ring =>
          if signedAreaLonLat ring < 0 then -ringAreaMeters2 ring
          else ringAreaMeters2 ring)).sum := by
  induction rings generalizing s with
  | nil => simp
  | cons r rs ih =>
    simp only [List.foldl_cons, List.map_cons, List.sum_cons]
    by_cases h : signedAreaLonLat r < 0
    · simp only [h, if_true, ih]
      ring
    · simp only [h, if_false, ih]
      ring

/-- `totalMeters2` as a sum of per-ring signed contributions. -/
theorem totalMeters2_eq_sum (rings : List (List Pt)) :
    totalMeters2 rings
    = (rings.map
        (fun ring =>
          if signedAreaLonLat ring < 0 then -ringAreaMeters2 ring
          else ringAreaMeters2 ring)).sum := by
  have h := totalMeters2_foldl rings 0
  simpa [totalMeters2] using h

/-! ## Reversal lemmas

Both per-term functions are antisymmetric, so every cyclic shoelace sum
changes sign under reversal of the point order. -/

theorem shoeTerm_antisymm (p q : Pt) : shoeTerm q p = -shoeTerm p q := by
  simp only [shoeTerm]
  ring

theorem crossProd_antisymm (p q : Pt) : crossProd q p = -crossProd p q := by
  simp only [crossProd]
  ring

theorem pathSum_concat (f : Pt → Pt → ℝ) :
    ∀ (l : List Pt) (b a : Pt),
      pathSum f (b :: (l ++ [a])) = pathSum f (b :: l) + f (l.getLastD b) a := by
  intro l
  induction l with
  | nil =>
    intro b a
    simp [pathSum]
  | cons c m ih =>
    intro b a
    have h1 : pathSum f (b :: ((c :: m) ++ [a]))
        = f b c + pathSum f (c :: (m ++ [a])) := rfl
    rw [h1, ih c a, pathSum_cons_cons, List.getLastD_cons]
    ring

theorem pathSum_reverse (f : Pt → Pt → ℝ)
    (hf : ∀ p q, f q p = -f p q) :
    ∀ l : List Pt, pathSum f l.reverse = -pathSum f l := by
  intro l
  induction l with
  | nil => simp [pathSum]
  | cons a m ih =>
    rcases m with _ | ⟨b, m'⟩
    · simp [pathSum]
    · rw [List.reverse_cons]
      rcases hrev : (b :: m').reverse with _ | ⟨c, k⟩
      · exact absurd (List.reverse_eq_nil_iff.mp hrev) (by simp)
      · have hlast : k.getLastD c = b := by
          have h1 : (c :: k).getLastD (0, 0) = b := by
            rw [List.getLastD_eq_getLast?, ← hrev, List.getLast?_reverse]
            rfl
          rwa [List.getLastD_cons] at h1
        rw [List.cons_append, pathSum_concat f k c a, hlast,
          ← hrev, ih, hf a b, pathSum_cons_cons]
        ring

theorem cyclicSum_reverse (f : Pt → Pt → ℝ)
    (hf : ∀ p q, f q p = -f p q) (l : List Pt) :
    cyclicSum f l.reverse = -cyclicSum f l := by
  rcases l with _ | ⟨a, m⟩
  · simp [cyclicSum]
  · have hne : ((a :: m).reverse.isEmpty = true) = False := by
      simp
    have hne2 : ((a :: m).isEmpty = true) = False := by simp
    rw [cyclicSum, cyclicSum, if_neg (by simp), if_neg (by simp),
      pathSum_reverse f hf]
    have hLast : (a :: m).reverse.getLastD (0, 0) = (a :: m).headD (0, 0) := by
      rw [List.getLastD_eq_getLast?, List.getLast?_reverse,
        List.headD_eq_head?]
    have hHead : (a :: m).reverse.headD (0, 0) = (a :: m).getLastD (0, 0) := by
      rw [List.headD_eq_head?, List.head?_reverse,
        List.getLastD_eq_getLast?]
    rw [hLast, hHead, hf]
    ring

theorem signedAreaLonLat_reverse (ring : List Pt) :
    signedAreaLonLat ring.reverse = -signedAreaLonLat ring := by
  rw [signedAreaLonLat, signedAreaLonLat,
    cyclicSum_reverse shoeTerm shoeTerm_antisymm]
  ring

theorem ringAreaMeters2_reverse (ring : List Pt) :
    ringAreaMeters2 ring.reverse = ringAreaMeters2 ring := by
  rw [ringAreaMeters2, ringAreaMeters2, List.length_reverse]
  rcases lt_or_le ring.length 3 with h | h
  · rw [if_pos h, if_pos h]
  · rw [if_neg (not_lt.mpr h), if_neg (not_lt.mpr h),
      List.map_reverse, cyclicSum_reverse crossProd crossProd_antisymm,
      abs_neg]

theorem ringAreaMeters2_nonneg (ring : List Pt) :
    0 ≤ ringAreaMeters2 ring := by
  rw [ringAreaMeters2]
  rcases lt_or_le ring.length 3 with h | h
  · rw [if_pos h]
  · rw [if_neg (not_lt.mpr h)]
    positivity

/-- The single-ring total is the ring's magnitude with the orientation
sign. -/
theorem totalMeters2_single (ring : List Pt) :
    totalMeters2 [ring]
      = if signedAreaLonLat ring < 0 then -ringAreaMeters2 ring
        else ringAreaMeters2 ring := by
  rw [totalMeters2_eq_sum]
  simp

theorem meters2ToSqFt_pos : (0 : ℝ) < meters2ToSqFt := by
  rw [meters2ToSqFt]
  norm_num

/-! ## Claim C1 -/

/-- Claim C1. For every polygon and every ring in it, the sign of the ring's
signed shoelace area computed directly on the raw longitude/latitude
coordinates decides its contribution: a ring with negative sign has its
projected-area magnitude subtracted from the running total, any other ring
has it added; the square-feet total is this signed sum times the conversion
factor. -/
theorem claim_C1 :
    ∀ rings : List (List Pt),
      totalMeters2 rings
        = (rings.map
            (fun ring =>
              if signedAreaLonLat ring < 0 then -ringAreaMeters2 ring
              else ringAreaMeters2 ring)).sum
      ∧ totalSqFt rings
        = (rings.map
            (fun ring =>
              if signedAreaLonLat ring < 0 then -ringAreaMeters2 ring
              else ringAreaMeters2 ring)).sum * meters2ToSqFt := by
  intro rings
  refine ⟨totalMeters2_eq_sum rings, ?_⟩
  rw [totalSqFt, totalMeters2_eq_sum]

/-! ## Claim C3 -/

/-- Threshold characterisation of `calculatePolygonAreaSqFt`: "unavailable"
exactly for a non-positive total, the rounded total otherwise (the
empty-rings early return coincides with the `total = 0` case). -/
theorem calcArea_eq (rings : List (List Pt)) :
    calculatePolygonAreaSqFt rings
      = if totalSqFt rings ≤ 0 then none
        else some (round (totalSqFt rings)) := by
  unfold calculatePolygonAreaSqFt
  rcases rings with _ | ⟨r, rs⟩
  · have h0 : totalSqFt ([] : List (List Pt)) = 0 := by
      simp [totalSqFt, totalMeters2]
    simp [h0]
  · simp only [List.isEmpty_cons, if_false, Bool.false_eq_true]
    by_cases h : 0 < totalSqFt (r :: rs)
    · rw [if_pos h, if_neg (not_le.mpr h)]
    · rw [if_neg h, if_pos (not_lt.mp h)]

/-- Claim C3. For every polygon input, the result is the "unavailable" marker
(`none`) when the square-feet total is ≤ 0, and the total rounded to the
nearest whole square foot otherwise.  (Non-finite totals do not arise in
this real-number idealisation; the empty-rings early return of the source
agrees with the `total = 0 ≤ 0` case.) -/
theorem claim_C3 :
    ∀ rings : List (List Pt),
      calculatePolygonAreaSqFt rings
        = if totalSqFt rings ≤ 0 then none
          else some (round (totalSqFt rings)) :=
  fun rings => calcArea_eq rings

/-! ## Claim C4 (amended) -/

/-- A single ring's signed contribution has the ring's magnitude as its
absolute value. -/
theorem abs_contribution (r : List Pt) :
    |if signedAreaLonLat r < 0 then -ringAreaMeters2 r
      else ringAreaMeters2 r| = ringAreaMeters2 r := by
  by_cases h : signedAreaLonLat r < 0
  · rw [if_pos h, abs_neg, abs_of_nonneg (ringAreaMeters2_nonneg r)]
  · rw [if_neg h, abs_of_nonneg (ringAreaMeters2_nonneg r)]

/-- Claim C4, amended. For every single-ring polygon, reversing the point
order of the sole ring flips the sign of its pre-projection signed shoelace
area, and it leaves the *magnitude of the square-feet total* (the value
computed before the positivity test and rounding) unchanged.  The magnitude
of the returned result is *not* preserved in general: the orientation whose
total is non-positive returns the "unavailable" marker
(see `claim_C4_counterexample`). -/
theorem claim_C4 :
    ∀ ring : List Pt,
      signedAreaLonLat ring.reverse = -signedAreaLonLat ring
      ∧ |totalSqFt [ring.reverse]| = |totalSqFt [ring]| := by
  intro ring
  refine ⟨signedAreaLonLat_reverse ring, ?_⟩
  have h1 : ∀ l : List Pt, |totalSqFt [l]| = ringAreaMeters2 l * meters2ToSqFt := by
    intro l
    rw [totalSqFt, abs_mul, abs_of_pos meters2ToSqFt_pos,
      totalMeters2_single, abs_contribution]
  rw [h1, h1, ringAreaMeters2_reverse]

/-! ## Index-sum characterisation of the cyclic shoelace sum -/

theorem pathSum_eq_range (f : Pt → Pt → ℝ) :
    ∀ l : List Pt,
      pathSum f l
        = ∑ i in Finset.range (l.length - 1),
            f (l.getD i (0, 0)) (l.getD (i + 1) (0, 0)) := by
  intro l
  induction l with
  | nil => simp [pathSum]
  | cons a m ih =>
    rcases m with _ | ⟨b, m'⟩
    · simp [pathSum]
    · have hlen : (b :: m').length - 1 = m'.length := by simp
      have hlen2 : (a :: b :: m').length - 1 = m'.length + 1 := by simp
      rw [pathSum_cons_cons, ih, hlen, hlen2, Finset.sum_range_succ']
      simp only [List.getD_cons_zero, List.getD_cons_succ]
      ring

theorem getD_length_sub_one (a : Pt) (m : List Pt) :
    (a :: m).getD ((a :: m).length - 1) (0, 0) = m.getLastD a := by
  rw [List.getD_eq_getElem?_getD, ← List.getLast?_eq_getElem?,
    ← List.getLastD_eq_getLast?, List.getLastD_cons]

theorem cyclicSum_eq_range (f : Pt → Pt → ℝ) (l : List Pt) :
    cyclicSum f l
      = ∑ i in Finset.range l.length,
          f (l.getD i (0, 0)) (l.getD ((i + 1) % l.length) (0, 0)) := by
  rcases l with _ | ⟨a, m⟩
  · simp [cyclicSum]
  · rw [cyclicSum_cons]
    have hn : (a :: m).length = m.length + 1 := by simp
    have hlast : (a :: m).getD (m.length) (0, 0) = m.getLastD a := by
      have h := getD_length_sub_one a m
      rwa [hn, Nat.add_sub_cancel] at h
    rw [hn, Finset.sum_range_succ,
      Finset.sum_congr rfl
        (fun i hi => by
          rw [Nat.mod_eq_of_lt
            (by have := Finset.mem_range.mp hi; omega)]),
      Nat.mod_self, hlast, List.getD_cons_zero, pathSum_eq_range]
    have hlen : (a :: m).length - 1 = m.length := by simp
    rw [hlen]

/-! ## Claim C2 -/

/-- Claim C2. Refinement of the spec's Mercator-shoelace description by the
source: the source projection is exactly the spec's
`x = R * radians(lon)`, `y = R * ln(tan(π/4 + radians(lat)/2))` with
`R = 6378137`; for every ring of at least 3 points the source's loop-based
ring magnitude equals the spec's "absolute shoelace sum over consecutive
pairs including wrap-around, divided by 2" on the projected points; and the
square-feet total is the square-meter total times exactly 10.76391041671. -/
theorem claim_C2 :
    (∀ p : Pt, lonLatToMercator p = specMercatorProj p)
    ∧ (∀ ring : List Pt, 3 ≤ ring.length →
        ringAreaMeters2 ring = specRingAreaMeters2 ring)
    ∧ (∀ rings : List (List Pt),
        totalSqFt rings = totalMeters2 rings * 10.76391041671) := by
  refine ⟨fun p => rfl, ?_, fun rings => rfl⟩
  intro ring h3
  have hmap : ring.map specMercatorProj = ring.map lonLatToMercator := rfl
  rw [ringAreaMeters2, if_neg (not_lt.mpr h3), specRingAreaMeters2, hmap,
    cyclicSum_eq_range crossProd (ring.map lonLatToMercator)]

/-- Witness for C2 at a concrete 3-point ring. -/
theorem claim_C2_witness :
    3 ≤ ([((0 : ℝ), (0 : ℝ)), (1, 0), (0, 1)] : List Pt).length
    ∧ ringAreaMeters2 [((0 : ℝ), (0 : ℝ)), (1, 0), (0, 1)]
        = specRingAreaMeters2 [((0 : ℝ), (0 : ℝ)), (1, 0), (0, 1)] :=
  ⟨by simp, claim_C2.2.1 _ (by simp)⟩

/-! ## Claim C7 -/

/-- Claim C7. A ring with fewer than 3 points never aborts the computation
(the embedding is total on such rings, mirroring the guarded source loop):
it contributes exactly zero, and the polygon's result equals the result over
the remaining rings alone — in particular alongside any valid outer ring. -/
theorem claim_C7 :
    ∀ (pre post : List (List Pt)) (r : List Pt), r.length < 3 →
      calculatePolygonAreaSqFt (pre ++ r :: post)
          = calculatePolygonAreaSqFt (pre ++ post)
      ∧ (if signedAreaLonLat r < 0 then -ringAreaMeters2 r
          else ringAreaMeters2 r) = 0 := by
  intro pre post r hr
  have hm2 : ringAreaMeters2 r = 0 := by rw [ringAreaMeters2, if_pos hr]
  have hcontrib :
      (if signedAreaLonLat r < 0 then -ringAreaMeters2 r
        else ringAreaMeters2 r) = 0 := by
    rw [hm2]
    by_cases h : signedAreaLonLat r < 0
    · rw [if_pos h, neg_zero]
    · rw [if_neg h]
  refine ⟨?_, hcontrib⟩
  have htot : totalMeters2 (pre ++ r :: post) = totalMeters2 (pre ++ post) := by
    rw [totalMeters2_eq_sum, totalMeters2_eq_sum]
    simp only [List.map_append, List.map_cons, List.sum_append,
      List.sum_cons, hcontrib]
    ring
  have hts : totalSqFt (pre ++ r :: post) = totalSqFt (pre ++ post) := by
    rw [totalSqFt, totalSqFt, htot]
  rw [calcArea_eq, calcArea_eq, hts]

/-- Witness for C7: a 2-point ring next to a valid triangle. -/
theorem claim_C7_witness :
    ([((5 : ℝ), (5 : ℝ)), (6, 5)] : List Pt).length < 3
    ∧ (calculatePolygonAreaSqFt
          ([[((0 : ℝ), (0 : ℝ)), (1, 0), (0, 1)]]
            ++ [((5 : ℝ), (5 : ℝ)), (6, 5)] :: [])
        = calculatePolygonAreaSqFt ([[((0 : ℝ), (0 : ℝ)), (1, 0), (0, 1)]] ++ [])
      ∧ (if signedAreaLonLat [((5 : ℝ), (5 : ℝ)), (6, 5)] < 0
          then -ringAreaMeters2 [((5 : ℝ), (5 : ℝ)), (6, 5)]
          else ringAreaMeters2 [((5 : ℝ), (5 : ℝ)), (6, 5)]) = 0) :=
  ⟨by simp, claim_C7 _ _ _ (by simp)⟩

/-! ## Claim C9 -/

/-- Claim C9. The legacy area function depends only on the first ring: two
geometries with equal first rings (equal `head?`, covering also the
both-empty case) get identical results, so later (hole) rings are never
subtracted — they are ignored entirely. -/
theorem claim_C9 :
    ∀ r1 r2 : List (List Pt), r1.head? = r2.head? →
      Legacy.calculatePolygonAreaSqFt r1 = Legacy.calculatePolygonAreaSqFt r2 := by
  intro r1 r2 h
  rcases r1 with _ | ⟨a, as⟩ <;> rcases r2 with _ | ⟨b, bs⟩
  · rfl
  · simp at h
  · simp at h
  · simp only [List.head?_cons, Option.some.injEq] at h
    subst h
    rfl

/-- Witness for C9: adding a second ("hole") ring does not change the legacy
result. -/
theorem claim_C9_witness :
    ([[((0 : ℝ), (0 : ℝ)), (1, 0), (0, 1)]] : List (List Pt)).head?
        = ([[((0 : ℝ), (0 : ℝ)), (1, 0), (0, 1)],
            [((0.2 : ℝ), (0.2 : ℝ)), (0.3, 0.2), (0.2, 0.3)]] :
            List (List Pt)).head?
    ∧ Legacy.calculatePolygonAreaSqFt [[((0 : ℝ), (0 : ℝ)), (1, 0), (0, 1)]]
        = Legacy.calculatePolygonAreaSqFt
            [[((0 : ℝ), (0 : ℝ)), (1, 0), (0, 1)],
             [((0.2 : ℝ), (0.2 : ℝ)), (0.3, 0.2), (0.2, 0.3)]] :=
  ⟨rfl, claim_C9 _ _ rfl⟩

/-! ## Claim C6 (amended) -/

/-- The building-footprint fold with an arbitrary start value, as the sum of
the per-geometry available areas (unavailable contributing zero; the
JavaScript truthiness check also skips a literal `0`, which contributes
zero either way). -/
theorem building_foldl (gs : List (List (List Pt))) (s : ℤ) :
    gs.foldl
      (fun acc g =>
        match calculatePolygonAreaSqFt g with
        | none => acc
        | some v => if v = 0 then acc else acc + v) s
    = s + (gs.map (fun g => (calculatePolygonAreaSqFt g).getD 0)).sum := by
  induction gs generalizing s with
  | nil => simp
  | cons g gs ih =>
    rcases hc : calculatePolygonAreaSqFt g with _ | v
    · simp only [List.foldl_cons, hc, List.map_cons, List.sum_cons,
        Option.getD_none]
      rw [ih]
      ring
    · simp only [List.foldl_cons, hc, List.map_cons, List.sum_cons,
        Option.getD_some]
      by_cases hv : v = 0
      · subst hv
        rw [ih]
        simp
      · rw [if_neg hv, ih]
        ring

theorem buildingTotalSqFt_eq_sum (gs : List (List (List Pt))) :
    buildingTotalSqFt gs
      = (gs.map (fun g => (calculatePolygonAreaSqFt g).getD 0)).sum := by
  have h := building_foldl gs 0
  simpa [buildingTotalSqFt] using h

/-- Claim C6, amended. The building-footprint aggregation sums
`calculatePolygonAreaSqFt` across every geometry with each "unavailable"
geometry contributing zero; it returns the "unavailable" marker if and only
if the summed total is zero — which happens when the input is empty or
every geometry yields "unavailable", but *also* when the available areas
are all 0 ft² (see `claim_C6_counterexample`). -/
theorem claim_C6 :
    ∀ gs : List (List (List Pt)),
      buildingTotalSqFt gs
          = (gs.map (fun g => (calculatePolygonAreaSqFt g).getD 0)).sum
      ∧ fetchBuildingFootprintArea gs
          = (if buildingTotalSqFt gs = 0 then none
              else some (buildingTotalSqFt gs))
      ∧ (fetchBuildingFootprintArea gs = none ↔ buildingTotalSqFt gs = 0) := by
  intro gs
  have heq : fetchBuildingFootprintArea gs
      = (if buildingTotalSqFt gs = 0 then none
          else some (buildingTotalSqFt gs)) := by
    rcases gs with _ | ⟨g, gs'⟩
    · have h0 : buildingTotalSqFt ([] : List (List (List Pt))) = 0 := by
        rw [buildingTotalSqFt_eq_sum]
        simp
      simp [fetchBuildingFootprintArea, h0]
    · rw [fetchBuildingFootprintArea,
        if_neg (by simp : ¬((g :: gs').isEmpty = true))]
  refine ⟨buildingTotalSqFt_eq_sum gs, heq, ?_⟩
  rw [heq]
  by_cases h : buildingTotalSqFt gs = 0
  · rw [if_pos h]
    exact ⟨fun _ => h, fun _ => rfl⟩
  · rw [if_neg h]
    exact ⟨fun hx => absurd hx (by simp), fun hx => absurd hx h⟩

/-! ## Claim C5 (amended) -/

/-- Claim C5, amended. For a polygon of one non-negatively-oriented outer
ring and one negatively-oriented hole ring, the square-meter total is the
outer magnitude minus the hole magnitude; when both results are available
the with-hole result is *at most* (not necessarily strictly less than) the
outer-alone result, because the hole's decrease can be swallowed by the
whole-square-foot rounding (see `claim_C5_counterexample`); and when the
hole's magnitude equals the outer's, the result is "unavailable". -/
theorem claim_C5 :
    ∀ o h : List Pt, 0 ≤ signedAreaLonLat o → signedAreaLonLat h < 0 →
      totalMeters2 [o, h] = ringAreaMeters2 o - ringAreaMeters2 h
      ∧ (∀ v w : ℤ, calculatePolygonAreaSqFt [o, h] = some v →
          calculatePolygonAreaSqFt [o] = some w → v ≤ w)
      ∧ (ringAreaMeters2 h = ringAreaMeters2 o →
          calculatePolygonAreaSqFt [o, h] = none) := by
  intro o h ho hh
  have htot : totalMeters2 [o, h] = ringAreaMeters2 o - ringAreaMeters2 h := by
    rw [totalMeters2_eq_sum]
    simp only [List.map_cons, List.map_nil, List.sum_cons, List.sum_nil]
    rw [if_neg (not_lt.mpr ho), if_pos hh]
    ring
  refine ⟨htot, ?_, ?_⟩
  · intro v w hv hw
    rw [calcArea_eq] at hv hw
    by_cases h1 : totalSqFt [o, h] ≤ 0
    · rw [if_pos h1] at hv
      exact absurd hv (by simp)
    · rw [if_neg h1] at hv
      by_cases h2 : totalSqFt [o] ≤ 0
      · rw [if_pos h2] at hw
        exact absurd hw (by simp)
      · rw [if_neg h2] at hw
        have hv' : v = round (totalSqFt [o, h]) := (Option.some.inj hv).symm
        have hw' : w = round (totalSqFt [o]) := (Option.some.inj hw).symm
        have hle : totalSqFt [o, h] ≤ totalSqFt [o] := by
          rw [totalSqFt, totalSqFt, htot, totalMeters2_single,
            if_neg (not_lt.mpr ho)]
          have hnn := ringAreaMeters2_nonneg h
          nlinarith [meters2ToSqFt_pos]
        rw [hv', hw', round_eq, round_eq]
        exact Int.floor_le_floor (by linarith)
  · intro heq
    have h0 : totalSqFt [o, h] = 0 := by
      rw [totalSqFt, htot, heq]
      ring
    rw [calcArea_eq, if_pos (le_of_eq h0)]

/-- Witness for C5: a counter-clockwise unit square and its reversal as the
hole. -/
theorem claim_C5_witness :
    (0 : ℝ) ≤ signedAreaLonLat [((0 : ℝ), (0 : ℝ)), (1, 0), (1, 1), (0, 1)]
    ∧ signedAreaLonLat [((0 : ℝ), (1 : ℝ)), (1, 1), (1, 0), (0, 0)] < 0
    ∧ (totalMeters2 [[((0 : ℝ), (0 : ℝ)), (1, 0), (1, 1), (0, 1)],
          [((0 : ℝ), (1 : ℝ)), (1, 1), (1, 0), (0, 0)]]
        = ringAreaMeters2 [((0 : ℝ), (0 : ℝ)), (1, 0), (1, 1), (0, 1)]
          - ringAreaMeters2 [((0 : ℝ), (1 : ℝ)), (1, 1), (1, 0), (0, 0)]
      ∧ (∀ v w : ℤ,
          calculatePolygonAreaSqFt [[((0 : ℝ), (0 : ℝ)), (1, 0), (1, 1), (0, 1)],
            [((0 : ℝ), (1 : ℝ)), (1, 1), (1, 0), (0, 0)]] = some v →
          calculatePolygonAreaSqFt [[((0 : ℝ), (0 : ℝ)), (1, 0), (1, 1), (0, 1)]]
            = some w → v ≤ w)
      ∧ (ringAreaMeters2 [((0 : ℝ), (1 : ℝ)), (1, 1), (1, 0), (0, 0)]
            = ringAreaMeters2 [((0 : ℝ), (0 : ℝ)), (1, 0), (1, 1), (0, 1)] →
          calculatePolygonAreaSqFt [[((0 : ℝ), (0 : ℝ)), (1, 0), (1, 1), (0, 1)],
            [((0 : ℝ), (1 : ℝ)), (1, 1), (1, 0), (0, 0)]] = none)) := by
  have ho : (0 : ℝ) ≤ signedAreaLonLat [((0 : ℝ), (0 : ℝ)), (1, 0), (1, 1), (0, 1)] := by
    norm_num [signedAreaLonLat, cyclicSum, pathSum, shoeTerm,
      List.getLastD_cons, List.getLastD_nil]
  have hh : signedAreaLonLat [((0 : ℝ), (1 : ℝ)), (1, 1), (1, 0), (0, 0)] < 0 := by
    norm_num [signedAreaLonLat, cyclicSum, pathSum, shoeTerm,
      List.getLastD_cons, List.getLastD_nil]
  exact ⟨ho, hh, claim_C5 _ _ ho hh⟩

/-! ## Elementary bounds on the Mercator latitude transform

For `0 ≤ x ≤ 1/4` we sandwich `tan (π/4 + x)` between `1 + 2x` and
`1 + 4x`, hence `ln (tan (π/4 + x))` between `x` and `4x`.  These crude
bounds are all the concrete-input evaluations below need. -/

theorem sin_le_self {x : ℝ} (h0 : 0 ≤ x) : Real.sin x ≤ x := by
  rcases eq_or_lt_of_le h0 with heq | hpos
  · rw [← heq]
    simp
  · exact (Real.sin_lt hpos).le

theorem cos_sub_sin_pos {x : ℝ} (h0 : 0 ≤ x) (h1 : x ≤ 1 / 4) :
    0 < Real.cos x - Real.sin x := by
  have hc := Real.one_sub_sq_div_two_le_cos (x := x)
  have hs := sin_le_self h0
  nlinarith

theorem tan_pi_div_four_add {x : ℝ} :
    Real.tan (Real.pi / 4 + x)
      = (Real.cos x + Real.sin x) / (Real.cos x - Real.sin x) := by
  have h2 : Real.sqrt 2 / 2 ≠ 0 := by
    have : (0 : ℝ) < Real.sqrt 2 := Real.sqrt_pos.mpr (by norm_num)
    positivity
  rw [Real.tan_eq_sin_div_cos, Real.sin_add, Real.cos_add,
    Real.sin_pi_div_four, Real.cos_pi_div_four,
    show Real.sqrt 2 / 2 * Real.cos x + Real.sqrt 2 / 2 * Real.sin x
        = Real.sqrt 2 / 2 * (Real.cos x + Real.sin x) from by ring,
    show Real.sqrt 2 / 2 * Real.cos x - Real.sqrt 2 / 2 * Real.sin x
        = Real.sqrt 2 / 2 * (Real.cos x - Real.sin x) from by ring,
    mul_div_mul_left _ _ h2]

theorem tan_upper {x : ℝ} (h0 : 0 ≤ x) (h1 : x ≤ 1 / 4) :
    Real.tan (Real.pi / 4 + x) ≤ 1 + 4 * x := by
  rw [tan_pi_div_four_add, div_le_iff₀ (cos_sub_sin_pos h0 h1)]
  have hs := sin_le_self h0
  have hc := Real.one_sub_sq_div_two_le_cos (x := x)
  have hc1 := Real.cos_le_one x
  nlinarith

theorem tan_lower {x : ℝ} (h0 : 0 ≤ x) (h1 : x ≤ 1 / 4) :
    1 + 2 * x ≤ Real.tan (Real.pi / 4 + x) := by
  rw [tan_pi_div_four_add, le_div_iff₀ (cos_sub_sin_pos h0 h1)]
  rcases eq_or_lt_of_le h0 with heq | hpos
  · rw [← heq]
    simp
  · have hs := Real.sin_gt_sub_cube hpos (by linarith)
    have hc1 := Real.cos_le_one x
    have haux : 2 * x * (x - x ^ 3 / 4) ≤ 2 * x * Real.sin x :=
      mul_le_mul_of_nonneg_left hs.le (by linarith)
    have hA : 0 ≤ 2 * x * (1 - Real.cos x) :=
      mul_nonneg (by linarith) (by linarith)
    have hx3 : x ^ 3 ≤ x ^ 2 / 4 := by
      nlinarith [mul_nonneg (sq_nonneg x) (sub_nonneg.mpr h1)]
    have hx4 : x ^ 4 ≤ x ^ 2 / 16 := by
      nlinarith [sq_nonneg x,
        mul_nonneg (sub_nonneg.mpr h1) (by linarith : (0 : ℝ) ≤ 1 / 4 + x)]
    nlinarith [haux, hs, hA, hx3, hx4, sq_nonneg x]

theorem logtan_le {x : ℝ} (h0 : 0 ≤ x) (h1 : x ≤ 1 / 4) :
    Real.log (Real.tan (Real.pi / 4 + x)) ≤ 4 * x := by
  have hlo := tan_lower h0 h1
  have hup := tan_upper h0 h1
  have hpos : (0 : ℝ) < Real.tan (Real.pi / 4 + x) := by linarith
  have u1 : Real.log (Real.tan (Real.pi / 4 + x)) ≤ Real.log (1 + 4 * x) :=
    Real.log_le_log hpos hup
  have u2 : Real.log (1 + 4 * x) ≤ 4 * x := by
    have := Real.log_le_sub_one_of_pos (show (0 : ℝ) < 1 + 4 * x by linarith)
    linarith
  linarith

theorem cyclicSum_four (f : Pt → Pt → ℝ) (p q r s : Pt) :
    cyclicSum f [p, q, r, s] = f p q + f q r + f r s + f s p := by
  rw [cyclicSum_cons, pathSum_cons_cons, pathSum_cons_cons,
    pathSum_cons_cons, pathSum_single, List.getLastD_cons,
    List.getLastD_cons, List.getLastD_cons, List.getLastD_nil]
  ring

theorem le_logtan {x : ℝ} (h0 : 0 ≤ x) (h1 : x ≤ 1 / 4) :
    x ≤ Real.log (Real.tan (Real.pi / 4 + x)) := by
  have hlo := tan_lower h0 h1
  have hpos : (0 : ℝ) < 1 + 2 * x := by linarith
  have l1 : Real.log (1 + 2 * x) ≤ Real.log (Real.tan (Real.pi / 4 + x)) :=
    Real.log_le_log hpos hlo
  have l2 : 1 - 1 / (1 + 2 * x) ≤ Real.log (1 + 2 * x) := by
    have hinv := Real.log_le_sub_one_of_pos
      (show (0 : ℝ) < (1 + 2 * x)⁻¹ by positivity)
    rw [Real.log_inv] at hinv
    have : (1 + 2 * x)⁻¹ = 1 / (1 + 2 * x) := by rw [one_div]
    linarith [hinv, this ▸ hinv]
  have l3 : x ≤ 1 - 1 / (1 + 2 * x) := by
    have hrw : 1 - 1 / (1 + 2 * x) = 2 * x / (1 + 2 * x) := by
      field_simp
    rw [hrw, le_div_iff₀ hpos]
    nlinarith
  linarith

/-! ## Concrete evaluation scaffolding

Small axis-aligned rectangles in degree coordinates, whose Mercator images
are again axis-aligned rectangles; the only transcendental quantities are
the projected latitudes `mercY`, which the sandwich above bounds. -/

theorem lonLatToMercator_eq (p : Pt) :
    lonLatToMercator p = (mercX p.1, mercY p.2) := by
  rw [lonLatToMercator, mercX, mercY,
    show p.2 * Real.pi / 180 / 2 = p.2 * Real.pi / 360 from by ring]

theorem mercX_zero : mercX 0 = 0 := by
  rw [mercX]
  ring

theorem mercY_zero : mercY 0 = 0 := by
  rw [mercY, show (0 : ℝ) * Real.pi / 360 = 0 from by ring, add_zero,
    Real.tan_pi_div_four, Real.log_one, mul_zero]

/-- Bounds for the projected latitude of a small nonnegative latitude. -/
theorem mercY_bounds (lat : ℝ) (h0 : 0 ≤ lat) (h1 : lat ≤ 1 / 100) :
    6378137 * (lat * Real.pi / 360) ≤ mercY lat
    ∧ mercY lat ≤ 6378137 * (4 * (lat * Real.pi / 360)) := by
  have hx0 : 0 ≤ lat * Real.pi / 360 := by positivity
  have hx1 : lat * Real.pi / 360 ≤ 1 / 4 := by
    nlinarith [Real.pi_le_four, Real.pi_pos]
  have hlo := le_logtan hx0 hx1
  have hup := logtan_le hx0 hx1
  rw [mercY]
  constructor
  · linarith
  · linarith

theorem signed_rectO (u t : ℝ) : signedAreaLonLat (rectO u t) = 9 * (u * t) := by
  rw [rectO, signedAreaLonLat, cyclicSum_four]
  simp only [shoeTerm]
  ring

theorem signed_rectH (a b c d : ℝ) :
    signedAreaLonLat (rectH a b c d) = (b - a) * (c - d) := by
  rw [rectH, signedAreaLonLat, cyclicSum_four]
  simp only [shoeTerm]
  ring

theorem m2_rectO (u t : ℝ) :
    ringAreaMeters2 (rectO u t) = |mercX (3 * u) * mercY (3 * t)| := by
  rw [ringAreaMeters2, if_neg (by rw [rectO]; norm_num)]
  have hmap : (rectO u t).map lonLatToMercator
      = [((0 : ℝ), (0 : ℝ)), (mercX (3 * u), 0),
         (mercX (3 * u), mercY (3 * t)), (0, mercY (3 * t))] := by
    simp [rectO, lonLatToMercator_eq, mercX_zero, mercY_zero]
  rw [hmap, cyclicSum_four,
    show crossProd ((0 : ℝ), (0 : ℝ)) (mercX (3 * u), 0)
        + crossProd (mercX (3 * u), 0) (mercX (3 * u), mercY (3 * t))
        + crossProd (mercX (3 * u), mercY (3 * t)) (0, mercY (3 * t))
        + crossProd (0, mercY (3 * t)) ((0 : ℝ), (0 : ℝ))
        = 2 * (mercX (3 * u) * mercY (3 * t)) from by
      simp [crossProd]
      ring,
    abs_mul]
  norm_num

theorem m2_rectH (a b c d : ℝ) :
    ringAreaMeters2 (rectH a b c d)
      = |(mercX b - mercX a) * (mercY d - mercY c)| := by
  rw [ringAreaMeters2, if_neg (by rw [rectH]; norm_num)]
  have hmap : (rectH a b c d).map lonLatToMercator
      = [(mercX a, mercY c), (mercX a, mercY d),
         (mercX b, mercY d), (mercX b, mercY c)] := by
    simp [rectH, lonLatToMercator_eq]
  rw [hmap, cyclicSum_four,
    show crossProd (mercX a, mercY c) (mercX a, mercY d)
        + crossProd (mercX a, mercY d) (mercX b, mercY d)
        + crossProd (mercX b, mercY d) (mercX b, mercY c)
        + crossProd (mercX b, mercY c) (mercX a, mercY c)
        = -(2 * ((mercX b - mercX a) * (mercY d - mercY c))) from by
      simp [crossProd]
      ring,
    abs_neg, abs_mul]
  norm_num

/-! ## Concrete rings -/

theorem Wsmall_pos : 0 < Wsmall := by
  rw [Wsmall]
  positivity

theorem Wsmall_le : Wsmall ≤ 6378137 / 900000000 := by
  rw [Wsmall]
  nlinarith [Real.pi_le_four]

theorem Wbig_ge : 53 ≤ Wbig := by
  rw [Wbig]
  nlinarith [Real.pi_gt_three]

theorem mercX_small1 : mercX (1 / 10 ^ 7) = 2 * Wsmall := by
  rw [mercX, Wsmall]
  ring

theorem mercX_small2 : mercX (2 / 10 ^ 7) = 4 * Wsmall := by
  rw [mercX, Wsmall]
  ring

theorem mercY_small1_bounds :
    Wsmall ≤ mercY (1 / 10 ^ 7) ∧ mercY (1 / 10 ^ 7) ≤ 4 * Wsmall := by
  have h := mercY_bounds (1 / 10 ^ 7) (by norm_num) (by norm_num)
  have e : 6378137 * (1 / 10 ^ 7 * Real.pi / 360) = Wsmall := by rw [Wsmall]
  constructor
  · linarith [h.1]
  · have e2 : 6378137 * (4 * (1 / 10 ^ 7 * Real.pi / 360)) = 4 * Wsmall := by
      rw [Wsmall]; ring
    linarith [h.2]

theorem mercY_small2_bounds :
    2 * Wsmall ≤ mercY (2 / 10 ^ 7) ∧ mercY (2 / 10 ^ 7) ≤ 8 * Wsmall := by
  have h := mercY_bounds (2 / 10 ^ 7) (by norm_num) (by norm_num)
  have e1 : 6378137 * (2 / 10 ^ 7 * Real.pi / 360) = 2 * Wsmall := by
    rw [Wsmall]; ring
  have e2 : 6378137 * (4 * (2 / 10 ^ 7 * Real.pi / 360)) = 8 * Wsmall := by
    rw [Wsmall]; ring
  constructor
  · linarith [h.1]
  · linarith [h.2]

theorem mercY_small3_bounds :
    3 * Wsmall ≤ mercY (3 * (1 / 10 ^ 7))
    ∧ mercY (3 * (1 / 10 ^ 7)) ≤ 12 * Wsmall := by
  have h := mercY_bounds (3 * (1 / 10 ^ 7)) (by norm_num) (by norm_num)
  have e1 : 6378137 * (3 * (1 / 10 ^ 7) * Real.pi / 360) = 3 * Wsmall := by
    rw [Wsmall]; ring
  have e2 : 6378137 * (4 * (3 * (1 / 10 ^ 7) * Real.pi / 360)) = 12 * Wsmall := by
    rw [Wsmall]; ring
  constructor
  · linarith [h.1]
  · linarith [h.2]

theorem mercX_small3 : mercX (3 * (1 / 10 ^ 7)) = 6 * Wsmall := by
  rw [mercX, Wsmall]
  ring

theorem m2_oRing_bounds :
    18 * Wsmall ^ 2 ≤ ringAreaMeters2 oRing
    ∧ ringAreaMeters2 oRing ≤ 72 * Wsmall ^ 2 := by
  rw [oRing, m2_rectO, mercX_small3]
  have hY := mercY_small3_bounds
  have hW := Wsmall_pos
  rw [abs_of_nonneg (by nlinarith [hY.1] : (0 : ℝ) ≤ 6 * Wsmall * mercY (3 * (1 / 10 ^ 7)))]
  constructor
  · nlinarith [hY.1]
  · nlinarith [hY.2]

theorem m2_hRing_le : ringAreaMeters2 hRing ≤ 14 * Wsmall ^ 2 := by
  rw [hRing, m2_rectH, mercX_small2, mercX_small1]
  have h1 := mercY_small1_bounds
  have h2 := mercY_small2_bounds
  have hW := Wsmall_pos
  rw [abs_mul]
  have e1 : |4 * Wsmall - 2 * Wsmall| = 2 * Wsmall := by
    rw [abs_of_nonneg (by linarith)]
    ring
  have e2 : |mercY (2 / 10 ^ 7) - mercY (1 / 10 ^ 7)| ≤ 7 * Wsmall :=
    abs_le.mpr ⟨by linarith [h1.2, h2.1], by linarith [h1.1, h2.2]⟩
  rw [e1]
  nlinarith [e2, abs_nonneg (mercY (2 / 10 ^ 7) - mercY (1 / 10 ^ 7))]

theorem signed_oRing_pos : 0 < signedAreaLonLat oRing := by
  rw [oRing, signed_rectO]
  norm_num

theorem signed_hRing_neg : signedAreaLonLat hRing < 0 := by
  rw [hRing, signed_rectH]
  norm_num

theorem totalSqFt_oRing_bounds :
    0 < totalSqFt [oRing] ∧ totalSqFt [oRing] < 1 / 2 := by
  have hm := m2_oRing_bounds
  have hW := Wsmall_pos
  have hWle := Wsmall_le
  have hW2 : Wsmall ^ 2 ≤ (6378137 / 900000000) ^ 2 := by nlinarith
  rw [totalSqFt, totalMeters2_single, if_neg (not_lt.mpr signed_oRing_pos.le),
    meters2ToSqFt]
  constructor
  · nlinarith [hm.1, mul_pos hW hW]
  · nlinarith [hm.2]

theorem totalMeters2_both :
    totalMeters2 [oRing, hRing]
      = ringAreaMeters2 oRing - ringAreaMeters2 hRing := by
  rw [totalMeters2_eq_sum]
  simp only [List.map_cons, List.map_nil, List.sum_cons, List.sum_nil]
  rw [if_neg (not_lt.mpr signed_oRing_pos.le), if_pos signed_hRing_neg]
  ring

theorem totalSqFt_both_bounds :
    0 < totalSqFt [oRing, hRing] ∧ totalSqFt [oRing, hRing] < 1 / 2 := by
  have hmo := m2_oRing_bounds
  have hmh := m2_hRing_le
  have hmh0 := ringAreaMeters2_nonneg hRing
  have hW := Wsmall_pos
  have hWle := Wsmall_le
  have hW2 : Wsmall ^ 2 ≤ (6378137 / 900000000) ^ 2 := by nlinarith
  rw [totalSqFt, totalMeters2_both, meters2ToSqFt]
  constructor
  · nlinarith [mul_pos hW hW]
  · nlinarith [hmo.2]

theorem round_eq_zero_of_mem {x : ℝ} (h0 : 0 < x) (h1 : x < 1 / 2) :
    round x = 0 := by
  rw [round_eq]
  apply Int.floor_eq_zero_iff.mpr
  constructor
  · linarith
  · linarith

theorem compute_oRing : calculatePolygonAreaSqFt [oRing] = some 0 := by
  have h := totalSqFt_oRing_bounds
  rw [calcArea_eq, if_neg (not_le.mpr h.1), round_eq_zero_of_mem h.1 h.2]

theorem compute_both : calculatePolygonAreaSqFt [oRing, hRing] = some 0 := by
  have h := totalSqFt_both_bounds
  rw [calcArea_eq, if_neg (not_le.mpr h.1), round_eq_zero_of_mem h.1 h.2]

/-- A positively-oriented single ring, reversed, always yields
"unavailable": the total becomes minus the (nonnegative) magnitude. -/
theorem compute_reverse_none {ring : List Pt}
    (hpos : 0 < signedAreaLonLat ring) :
    calculatePolygonAreaSqFt [ring.reverse] = none := by
  have hrev : signedAreaLonLat ring.reverse < 0 := by
    rw [signedAreaLonLat_reverse]
    linarith
  rw [calcArea_eq, if_pos ?_]
  rw [totalSqFt, totalMeters2_single, if_pos hrev, ringAreaMeters2_reverse]
  nlinarith [ringAreaMeters2_nonneg ring, meters2ToSqFt_pos]

/-! ## The big ring: a result of at least one square foot -/

theorem mercX_big3 : mercX (3 * (1 / 10 ^ 3)) = 6 * Wbig := by
  rw [mercX, Wbig]
  ring

theorem mercY_big3_ge : 3 * Wbig ≤ mercY (3 * (1 / 10 ^ 3)) := by
  have h := mercY_bounds (3 * (1 / 10 ^ 3)) (by norm_num) (by norm_num)
  have e1 : 6378137 * (3 * (1 / 10 ^ 3) * Real.pi / 360) = 3 * Wbig := by
    rw [Wbig]; ring
  linarith [h.1]

theorem signed_bigRing_pos : 0 < signedAreaLonLat bigRing := by
  rw [bigRing, signed_rectO]
  norm_num

theorem totalSqFt_big_ge : 1 / 2 ≤ totalSqFt [bigRing] := by
  have hW := Wbig_ge
  have hY := mercY_big3_ge
  have hWpos : (0 : ℝ) < Wbig := by linarith
  rw [totalSqFt, totalMeters2_single,
    if_neg (not_lt.mpr signed_bigRing_pos.le), bigRing, m2_rectO,
    mercX_big3, meters2ToSqFt,
    abs_of_nonneg (by nlinarith : (0 : ℝ) ≤ 6 * Wbig * mercY (3 * (1 / 10 ^ 3)))]
  nlinarith

theorem compute_bigRing : ∃ v : ℤ,
    calculatePolygonAreaSqFt [bigRing] = some v ∧ 1 ≤ v := by
  have h := totalSqFt_big_ge
  refine ⟨round (totalSqFt [bigRing]), ?_, ?_⟩
  · rw [calcArea_eq, if_neg (not_le.mpr (by linarith))]
  · rw [round_eq]
    exact Int.le_floor.mpr (by push_cast; linarith)

/-! ## Claim C4 counterexample -/

/-- Counterexample to claim C4 as stated. For the concrete single-ring polygon `[bigRing]`
the original orientation returns a value of at least one square foot while
the reversed orientation returns the "unavailable" marker, so reversing the
sole ring does *not* leave the magnitude of the result unchanged. -/
theorem claim_C4_counterexample :
    (∃ v : ℤ, calculatePolygonAreaSqFt [bigRing] = some v ∧ 1 ≤ v)
    ∧ calculatePolygonAreaSqFt [bigRing.reverse] = none :=
  ⟨compute_bigRing, compute_reverse_none signed_bigRing_pos⟩

/-! ## Claim C5 counterexample -/

/-- Counterexample to claim C5 as stated. `oRing` is a positively-oriented outer rectangle
`[0, 3e-7]² `; `hRing` is a negatively-oriented rectangle all of whose
vertices lie strictly inside it.  Both the polygon with the hole and the
outer ring alone return exactly 0 ft² — the rounded result with the hole is
*not* strictly less than the outer-alone result. -/
theorem claim_C5_counterexample :
    0 < signedAreaLonLat oRing
    ∧ signedAreaLonLat hRing < 0
    ∧ (∀ p ∈ hRing, 0 < p.1 ∧ p.1 < 3 * (1 / 10 ^ 7)
        ∧ 0 < p.2 ∧ p.2 < 3 * (1 / 10 ^ 7))
    ∧ calculatePolygonAreaSqFt [oRing, hRing] = calculatePolygonAreaSqFt [oRing]
    ∧ calculatePolygonAreaSqFt [oRing] = some 0 := by
  refine ⟨signed_oRing_pos, signed_hRing_neg, ?_, ?_, compute_oRing⟩
  · intro p hp
    rw [hRing, rectH] at hp
    simp only [List.mem_cons, List.not_mem_nil, or_false] at hp
    rcases hp with h | h | h | h <;> subst h <;> norm_num
  · rw [compute_both, compute_oRing]

/-! ## Claim C6 counterexample -/

/-- Counterexample to claim C6 as stated. A non-empty feature list whose single polygon
yields the available value 0 ft² (not "unavailable"), yet the aggregation
returns "unavailable" because the JavaScript truthiness test treats the
zero total like a missing one. -/
theorem claim_C6_counterexample :
    fetchBuildingFootprintArea [[oRing]] = none
    ∧ calculatePolygonAreaSqFt [oRing] = some 0
    ∧ ([[oRing]] : List (List (List Pt))) ≠ [] := by
  refine ⟨?_, compute_oRing, by simp⟩
  have hb : buildingTotalSqFt [[oRing]] = 0 := by
    rw [buildingTotalSqFt_eq_sum]
    simp [compute_oRing]
  simp [fetchBuildingFootprintArea, hb]

/-! ## Claim C8 -/

/-- Claim C8. The two area implementations diverge: on the concrete polygon
`[oRing]` the legacy fixed-multiplier formula returns the nonzero value
`(18/10^14) * 12365 * 10.7639` square feet while the Mercator-shoelace
version returns 0 square feet, so the two functions are not extensionally
equal. -/
theorem claim_C8 :
    ∃ (rings : List (List Pt)) (v : ℝ) (w : ℤ),
      Legacy.calculatePolygonAreaSqFt rings = Except.ok v
      ∧ calculatePolygonAreaSqFt rings = some w
      ∧ v ≠ (w : ℝ) := by
  refine ⟨[oRing], |cyclicSum shoeTerm oRing| * 12365 * 10.7639, 0, rfl,
    compute_oRing, ?_⟩
  have hc : cyclicSum shoeTerm oRing = 2 * signedAreaLonLat oRing := by
    rw [signedAreaLonLat]
    ring
  rw [hc, oRing, signed_rectO]
  push_cast
  norm_num

/-! ## Claim C10 -/

/-- Claim C10. Whenever the Mercator-shoelace function does not return
"unavailable" the returned value is a non-negative whole number (the
codomain is ℤ and the value is ≥ 0); the result is exactly 0 precisely when
the square-feet total lies strictly between 0 and 1/2; and 0 is actually
attained, on the tiny ring `oRing`. -/
theorem claim_C10 :
    (∀ gs : List (List Pt),
        0 ≤ (calculatePolygonAreaSqFt gs).getD 0
        ∧ (calculatePolygonAreaSqFt gs = some 0
            ↔ 0 < totalSqFt gs ∧ totalSqFt gs < 1 / 2))
    ∧ (∃ gs : List (List Pt), calculatePolygonAreaSqFt gs = some 0) := by
  constructor
  · intro gs
    constructor
    · rw [calcArea_eq]
      by_cases h : totalSqFt gs ≤ 0
      · rw [if_pos h]
        simp
      · rw [if_neg h]
        push_neg at h
        simp only [Option.getD_some]
        rw [round_eq]
        exact Int.floor_nonneg.mpr (by linarith)
    · rw [calcArea_eq]
      by_cases h : totalSqFt gs ≤ 0
      · rw [if_pos h]
        constructor
        · intro hx
          exact absurd hx (by simp)
        · rintro ⟨h1, _⟩
          linarith
      · rw [if_neg h]
        push_neg at h
        constructor
        · intro hx
          have hr : round (totalSqFt gs) = 0 := by
            have := Option.some.inj hx
            exact this
          rw [round_eq] at hr
          have hm := Int.floor_eq_zero_iff.mp hr
          rw [Set.mem_Ico] at hm
          exact ⟨h, by linarith [hm.2]⟩
        · rintro ⟨h1, h2⟩
          rw [round_eq_zero_of_mem h1 h2]
  · exact ⟨[oRing], compute_oRing⟩

end

end ValdezGIS
